import Mathlib

/-!
Verification of the pasty content server's core delivery subsystems against
its specification.  The definitions below are a shallow embedding of the Go
source: the HTTP range parser and range-aware file server (upload.go), the
extension-based content classifier (upload.go), and the snippet store with
its JSON snapshot persistence, burn-after-reading display logic and random
id generator (main.go).  Strings of the Go code are modelled as lists of
characters, machine int64 values as mathematical integers with the explicit
int64 bounds checks that strconv.ParseInt performs, and the filesystem as an
association list from paths to file contents.
-/

namespace Pasty

/-! ## Decimal parsing, modelling strconv.ParseInt(s, 10, 64) -/

/-- Numeric value of a digit character, where digit characters live in the
ASCII range 48..57. -/
def digitVal (c : Char) : Nat := c.toNat - 48

/-- Recognizer for ASCII decimal digit characters. -/
def isDigitChar (c : Char) : Bool := 48 ≤ c.toNat && c.toNat ≤ 57

/-- Parses a nonempty all-digit string into the natural number it denotes,
most significant digit first. -/
def parseDigits (s : List Char) : Option Nat :=
  if s ≠ [] ∧ s.all isDigitChar then
    some (s.foldl (fun acc c => acc * 10 + digitVal c) 0)
  else none

/-- Largest int64 value, 2^63 - 1. -/
def int64Max : Int := 9223372036854775807

/-- Smallest int64 value, -2^63. -/
def int64Min : Int := -9223372036854775808

/-- Model of Go strconv.ParseInt(s, 10, 64): an optional sign followed by at
least one decimal digit, with the result required to fit in int64 (Go
reports an ErrRange error otherwise, which the range parser treats the same
as a syntax error). -/
def parseInt64 (s : List Char) : Option Int :=
  match s with
  | [] => none
  | c :: rest =>
    let neg : Bool := c = '-'
    let digits : List Char := if c = '-' ∨ c = '+' then rest else s
    match parseDigits digits with
    | none => none
    | some n =>
      let v : Int := if neg then -(n : Int) else (n : Int)
      if int64Min ≤ v ∧ v ≤ int64Max then some v else none

/-! ## Range parsing, modelling parseRange of upload.go -/

/-- Model of Go strings.Split(s, "-"): splits a string at every dash,
producing one (possibly empty) group per gap. -/
def splitDash : List Char → List (List Char)
  | [] => [[]]
  | c :: rest =>
    if c = '-' then [] :: splitDash rest
    else
      match splitDash rest with
      | [] => [[c]]
      | g :: gs => (c :: g) :: gs

/-- Final checks of parseRange, shared by all three recognized range forms:
a start at or beyond the file size is rejected, and an end beyond the last
byte is clamped to fileSize - 1. -/
def rangeChecks (fileSize start end_ : Int) : Option (Int × Int) :=
  if start ≥ fileSize then none
  else some (start, if end_ ≥ fileSize then fileSize - 1 else end_)

/-- Model of parseRange (upload.go): parses an HTTP Range header of the form
bytes=start-end, bytes=start- or bytes=-suffix against the given file size,
returning the inclusive start and end byte positions on success. -/
def parseRange (rangeHeader : List Char) (fileSize : Int) : Option (Int × Int) :=
  if rangeHeader.length < 6 ∨ rangeHeader.take 6 ≠ "bytes=".toList then none
  else
    match splitDash (rangeHeader.drop 6) with
    | [p0, p1] =>
      if p0 = [] then
        -- suffix range "-500": last 500 bytes
        if p1 = [] then none
        else
          match parseInt64 p1 with
          | none => none
          | some suffixLength =>
            if suffixLength < 0 then none
            else
              let start := fileSize - suffixLength
              rangeChecks fileSize (if start < 0 then 0 else start) (fileSize - 1)
      else
        match parseInt64 p0 with
        | none => none
        | some start =>
          if start < 0 then none
          else if p1 = [] then
            -- open-ended range "100-": from 100 to end
            rangeChecks fileSize start (fileSize - 1)
          else
            match parseInt64 p1 with
            | none => none
            | some end_ =>
              if end_ < start then none
              else rangeChecks fileSize start end_
    | _ => none

/-! ## Decimal rendering, modelling fmt.Sprintf of the header values -/

/-- Little-endian base-10 digits of n, computed with explicit fuel so that
the kernel can evaluate the definition; with fuel at least n this agrees
with Nat.digits 10 n. -/
def natToDigitsRev : Nat → Nat → List Nat
  | 0, _ => []
  | fuel + 1, n => if n = 0 then [] else n % 10 :: natToDigitsRev fuel (n / 10)

/-- Decimal rendering of a natural number, most significant digit first. -/
def natRepr (n : Nat) : List Char :=
  if n = 0 then ['0']
  else (natToDigitsRev n n).reverse.map fun d => Char.ofNat (48 + d)

/-- Decimal rendering of an integer, as fmt.Sprintf %d produces. -/
def intRepr (i : Int) : List Char :=
  if i < 0 then '-' :: natRepr (-i).toNat else natRepr i.toNat

/-- Value of the Content-Range header, bytes start-end/size. -/
def contentRangeValue (start end_ fileSize : Int) : List Char :=
  "bytes ".toList ++ intRepr start ++ '-' :: (intRepr end_ ++ '/' :: intRepr fileSize)

/-- Header text bytes=start-end with both positions in decimal, as in the
claims about explicit ranges. -/
def explicitRangeHeader (s e : Nat) : List Char :=
  "bytes=".toList ++ (natRepr s ++ '-' :: natRepr e)

/-- Header text bytes=-k with the suffix length in decimal, as in the claims
about suffix ranges. -/
def suffixRangeHeader (k : Nat) : List Char :=
  "bytes=".toList ++ '-' :: natRepr k

/-! ## Range-aware file serving, modelling serveFile of upload.go -/

/-- Observable outcome of serveFile for an existing backing file: status
code, optional Content-Range header, Content-Length header, Accept-Ranges
header presence, and the bytes streamed to the client. -/
structure RangeResponse where
  status : Nat
  contentRange : Option (List Char)
  contentLength : Int
  acceptRanges : Bool
  body : List Nat
deriving DecidableEq

/-- Response of serveFile when it streams the complete file: status 200 and
the whole content, with Content-Length equal to the file size. -/
def serveFull (content : List Nat) : RangeResponse :=
  { status := 200
  , contentRange := none
  , contentLength := (content.length : Int)
  , acceptRanges := true
  , body := content }

/-- Model of serveFile (upload.go) for an existing backing file with the
given content, where the empty header list stands for an absent Range
header (Go receives the empty string in that case).  On a parsable and
satisfiable range it seeks to start and streams end - start + 1 bytes with
status 206; otherwise it falls back to the full 200 response. -/
def serveFile (content : List Nat) (rangeHeader : List Char) : RangeResponse :=
  let fileSize : Int := (content.length : Int)
  if rangeHeader ≠ [] then
    match parseRange rangeHeader fileSize with
    | some (s, e) =>
      { status := 206
      , contentRange := some (contentRangeValue s e fileSize)
      , contentLength := e - s + 1
      , acceptRanges := true
      , body := (content.drop s.toNat).take (e - s + 1).toNat }
    | none => serveFull content
  else serveFull content

/-! ## Content classification, modelling getContentType and the category
predicates of upload.go -/

/-- Helper for fileExt: walks the reversed filename accumulating the
characters already passed; a path separator before any dot means no
extension, and the first dot found (the last of the original string) yields
the extension from that dot on. -/
def fileExtFromRev : List Char → List Char → List Char
  | [], _ => []
  | c :: rest, acc =>
    if c = '/' then []
    else if c = '.' then '.' :: acc
    else fileExtFromRev rest (c :: acc)

/-- Model of Go filepath.Ext on Unix: the suffix of the final path element
beginning at its final dot, or empty when that element has no dot. -/
def fileExt (filename : List Char) : List Char := fileExtFromRev filename.reverse []

/-- Model of getContentType (upload.go): MIME type from the extension via a
fixed case-sensitive table, defaulting to application/octet-stream. -/
def getContentType (filename : List Char) : String :=
  let ext := fileExt filename
  if ext = ".mp4".toList then "video/mp4"
  else if ext = ".mov".toList then "video/quicktime"
  else if ext = ".avi".toList then "video/x-msvideo"
  else if ext = ".webm".toList then "video/webm"
  else if ext = ".pdf".toList then "application/pdf"
  else if ext = ".jpg".toList ∨ ext = ".jpeg".toList then "image/jpeg"
  else if ext = ".png".toList then "image/png"
  else if ext = ".gif".toList then "image/gif"
  else if ext = ".webp".toList then "image/webp"
  else if ext = ".txt".toList then "text/plain"
  else if ext = ".html".toList ∨ ext = ".htm".toList then "text/html"
  else if ext = ".json".toList then "application/json"
  else if ext = ".xml".toList then "application/xml"
  else if ext = ".mp3".toList then "audio/mpeg"
  else if ext = ".wav".toList then "audio/wav"
  else if ext = ".ogg".toList then "audio/ogg"
  else "application/octet-stream"

/-- Model of isVideoFile (upload.go). -/
def isVideoFile (filename : List Char) : Bool :=
  let ext := fileExt filename
  ext = ".mp4".toList || ext = ".mov".toList || ext = ".avi".toList || ext = ".webm".toList

/-- Model of isAudioFile (upload.go). -/
def isAudioFile (filename : List Char) : Bool :=
  let ext := fileExt filename
  ext = ".mp3".toList || ext = ".wav".toList || ext = ".ogg".toList

/-- Model of isImageFile (upload.go). -/
def isImageFile (filename : List Char) : Bool :=
  let ext := fileExt filename
  ext = ".jpg".toList || ext = ".jpeg".toList || ext = ".png".toList ||
    ext = ".gif".toList || ext = ".webp".toList

/-- Model of isPDFFile (upload.go). -/
def isPDFFile (filename : List Char) : Bool :=
  fileExt filename = ".pdf".toList

/-- Model of isTextFile (upload.go). -/
def isTextFile (filename : List Char) : Bool :=
  let ext := fileExt filename
  ext = ".txt".toList || ext = ".html".toList || ext = ".htm".toList ||
    ext = ".json".toList || ext = ".xml".toList

/-- Transcription of the specification's extension table (spec section 4.2),
in the spec's order, to compare getContentType against. -/
def specMime (ext : List Char) : String :=
  if ext = ".mp4".toList then "video/mp4"
  else if ext = ".mov".toList then "video/quicktime"
  else if ext = ".avi".toList then "video/x-msvideo"
  else if ext = ".webm".toList then "video/webm"
  else if ext = ".mp3".toList then "audio/mpeg"
  else if ext = ".wav".toList then "audio/wav"
  else if ext = ".ogg".toList then "audio/ogg"
  else if ext = ".jpg".toList then "image/jpeg"
  else if ext = ".jpeg".toList then "image/jpeg"
  else if ext = ".png".toList then "image/png"
  else if ext = ".gif".toList then "image/gif"
  else if ext = ".webp".toList then "image/webp"
  else if ext = ".pdf".toList then "application/pdf"
  else if ext = ".txt".toList then "text/plain"
  else if ext = ".html".toList then "text/html"
  else if ext = ".htm".toList then "text/html"
  else if ext = ".json".toList then "application/json"
  else if ext = ".xml".toList then "application/xml"
  else "application/octet-stream"

/-- Video extensions listed by the specification. -/
def videoExts : List (List Char) :=
  [".mp4".toList, ".mov".toList, ".avi".toList, ".webm".toList]

/-- Audio extensions listed by the specification. -/
def audioExts : List (List Char) :=
  [".mp3".toList, ".wav".toList, ".ogg".toList]

/-- Image extensions listed by the specification. -/
def imageExts : List (List Char) :=
  [".jpg".toList, ".jpeg".toList, ".png".toList, ".gif".toList, ".webp".toList]

/-- PDF extensions listed by the specification. -/
def pdfExts : List (List Char) := [".pdf".toList]

/-- Text extensions listed by the specification. -/
def textExts : List (List Char) :=
  [".txt".toList, ".html".toList, ".htm".toList, ".json".toList, ".xml".toList]

/-- All extensions of the specification's table. -/
def mappedExts : List (List Char) :=
  videoExts ++ audioExts ++ imageExts ++ pdfExts ++ textExts

/-! ## Snippet store, modelling the global snippets map of main.go -/

/-- Model of the Snippet struct of main.go. -/
structure Snippet where
  title : String
  text : String
  burnAfterReading : Bool
deriving DecidableEq

/-- Model of the global map from snippet id to Snippet, as an association
list whose operations mirror Go map lookup, assignment and delete. -/
abbrev Store := List (String × Snippet)

/-- Lookup in an association list, as a Go map index expression. -/
def alistLookup {β : Type} (k : String) : List (String × β) → Option β
  | [] => none
  | (k', v) :: rest => if k' = k then some v else alistLookup k rest

/-- Deletion from an association list, as the Go delete builtin. -/
def alistDelete {β : Type} (k : String) : List (String × β) → List (String × β)
  | [] => []
  | p :: rest => if p.1 = k then alistDelete k rest else p :: alistDelete k rest

/-- Assignment in an association list, as a Go map assignment. -/
def alistInsert {β : Type} (k : String) (v : β) (l : List (String × β)) :
    List (String × β) :=
  (k, v) :: alistDelete k l

/-- Keys of an association list. -/
def alistKeys {β : Type} (l : List (String × β)) : List String := l.map Prod.fst

/-! ## JSON snapshot persistence, modelling saveSnippetsToFile and
loadSnippetsFromFile of main.go.  The JSON document is modelled at the
level of its abstract syntax tree: the textual encoding and decoding that
encoding/json performs (indentation, escaping, sorted object keys) is
bijective on this tree and orthogonal to the claims, which concern only the
set of entries stored. -/

/-- JSON values as far as the snapshot format needs them. -/
inductive Json where
  | str (s : String)
  | bool (b : Bool)
  | num (n : Int)
  | obj (fields : List (String × Json))

/-- Model of json.MarshalIndent on one Snippet: an object with the three
tagged fields title, text and burn_after_reading. -/
def encodeSnippet (sn : Snippet) : Json :=
  .obj [("title", .str sn.title), ("text", .str sn.text),
        ("burn_after_reading", .bool sn.burnAfterReading)]

/-- Model of json.MarshalIndent on the snippets map: an object with one
field per entry.  Go emits the keys in sorted order; the model keeps store
order, which changes nothing about the set of entries. -/
def marshalSnippets (store : Store) : Json :=
  .obj (store.map fun q => (q.1, encodeSnippet q.2))

/-- Decoding of an optional string-typed JSON field, as encoding/json does
when filling a struct: a missing field keeps the zero value, a field of the
wrong type is an error. -/
def decodeString : Option Json → Option String
  | none => some ""
  | some (Json.str s) => some s
  | some _ => none

/-- Decoding of an optional bool-typed JSON field. -/
def decodeBool : Option Json → Option Bool
  | none => some false
  | some (Json.bool b) => some b
  | some _ => none

/-- Decoding of one snippet object. -/
def decodeSnippet : Json → Option Snippet
  | Json.obj fields =>
    match decodeString (alistLookup "title" fields),
        decodeString (alistLookup "text" fields),
        decodeBool (alistLookup "burn_after_reading" fields) with
    | some t, some x, some b => some { title := t, text := x, burnAfterReading := b }
    | _, _, _ => none
  | _ => none

/-- Decoding of the field list of the snapshot object into a store, one
entry at a time as json.Decoder.Decode fills a map. -/
def decodeSnippetsList : List (String × Json) → Store → Option Store
  | [], acc => some acc
  | (k, j) :: rest, acc =>
    match decodeSnippet j with
    | none => none
    | some sn => decodeSnippetsList rest (alistInsert k sn acc)

/-- Model of decoding the whole snapshot document: the top level must be an
object mapping ids to snippet objects. -/
def unmarshalSnippets (j : Json) : Option Store :=
  match j with
  | Json.obj fields => decodeSnippetsList fields []
  | _ => none

/-- The filesystem visible to the persistence code: an association list
from paths to the JSON documents stored there. -/
abbrev FS := List (String × Json)

/-- Reading a file, none when the path does not exist. -/
def fsRead (fs : FS) (path : String) : Option Json := alistLookup path fs

/-- Result of saveSnippetsToFile: the filesystem afterwards and whether the
save succeeded (a failed step is logged and the function returns early). -/
structure SaveResult where
  fs : FS
  ok : Bool

/-- Model of saveSnippetsToFile (main.go).  The three Bool parameters model
the environment: whether json.MarshalIndent, os.WriteFile and os.Rename
succeed.  A failed write may leave arbitrary partial data at the temporary
path (the leftoverTemp parameter); a successful rename atomically replaces
the target with the temporary file's contents and removes the temporary
path.  Each failure is logged and returns early without touching the
target path. -/
def saveSnippetsToFile (mOk wOk rOk : Bool) (leftoverTemp : Json) (fs : FS)
    (filename : String) (store : Store) : SaveResult :=
  if mOk = false then { fs := fs, ok := false }
  else
    let data := marshalSnippets store
    let tmpFile := filename ++ ".tmp"
    if wOk = false then { fs := alistInsert tmpFile leftoverTemp fs, ok := false }
    else
      let fs1 := alistInsert tmpFile data fs
      if rOk = false then { fs := fs1, ok := false }
      else { fs := alistInsert filename data (alistDelete tmpFile fs1), ok := true }

/-- Outcome of loadSnippetsFromFile: either a loaded store or a fatal exit
(log.Fatalf terminates the process). -/
inductive LoadResult where
  | loaded (store : Store)
  | fatal
deriving DecidableEq

/-- Model of loadSnippetsFromFile (main.go) at startup, when the global
snippets map is still empty: a missing snapshot file yields the empty store
and is not an error; a file that exists but cannot be opened (openOk models
os.Open succeeding) or whose contents do not decode is fatal. -/
def loadSnippetsFromFile (fs : FS) (filename : String) (openOk : Bool) : LoadResult :=
  match fsRead fs filename with
  | none => .loaded []
  | some content =>
    if openOk = false then .fatal
    else
      match unmarshalSnippets content with
      | none => .fatal
      | some store => .loaded store

/-! ## Snippet display, modelling displaySnippet of main.go -/

/-- Observable outcome of displaySnippet: a 303 redirect home when the id
is absent, a rendered page, or a 500 template error. -/
inductive DisplayOutcome where
  | redirectHome
  | rendered (title text : String)
  | renderError
deriving DecidableEq

/-- Model of displaySnippet (main.go): looks the id up, redirects home when
absent, otherwise renders the display template (renderOk models
tmplDisplay.Execute succeeding; on error the handler returns before the
burn check), and after a successful render deletes the snippet exactly when
burnAfterReading is set (followed by a saveSnippetsToFile call, modelled
separately).  Returns the outcome and the store afterwards. -/
def displaySnippet (store : Store) (url : String) (renderOk : Bool) :
    DisplayOutcome × Store :=
  match alistLookup url store with
  | none => (.redirectHome, store)
  | some sn =>
    if renderOk = false then (.renderError, store)
    else if sn.burnAfterReading then (.rendered sn.title sn.text, alistDelete url store)
    else (.rendered sn.title sn.text, store)

/-! ## Snippet id generation, modelling randomString and generateURL of
main.go.  The stream g of rand.Intn(36) outputs is an explicit input; the
loop of generateURL consumes three samples per attempt. -/

/-- The id alphabet snippetChars of main.go. -/
def snippetChars : List Char := "abcdefghijklmnopqrstuvwxyz0123456789".toList

/-- Model of randomString (main.go) reading n samples of the stream g
starting at offset off. -/
def randomStringFrom (g : Nat → Fin 36) (off n : Nat) : String :=
  String.mk ((List.range n).map fun i => snippetChars.getD (g (off + i)).val 'a')

/-- The candidate id produced by the given attempt of the generateURL loop:
randomString 3 consuming samples 3*attempt .. 3*attempt+2. -/
def idAt (g : Nat → Fin 36) (attempt : Nat) : String :=
  randomStringFrom g (3 * attempt) 3

/-- Model of the generateURL loop (main.go) with explicit fuel: each round
draws the next 3-character id and returns it unless it is already a key of
the store, in which case it loops; none means the loop was still running
when the fuel ran out. -/
def generateURLFuel : Nat → Store → (Nat → Fin 36) → Nat → Option String
  | 0, _, _, _ => none
  | fuel + 1, store, g, attempt =>
    let id := idAt g attempt
    if (alistLookup id store).isNone then some id
    else generateURLFuel fuel store g (attempt + 1)

/-- Divergence of the generateURL loop: no amount of fuel makes any suffix
of the loop return, i.e. the Go loop never exits. -/
def genDiverges (store : Store) (g : Nat → Fin 36) : Prop :=
  ∀ fuel attempt, generateURLFuel fuel store g attempt = none

/-- The snippet inserted by handleSave after generating an id; its contents
are irrelevant to id generation. -/
def placeholderSnippet : Snippet :=
  { title := "None", text := "", burnAfterReading := false }

/-- Stores arising from a sequence of generate-then-insert rounds against
an initially empty store: round n runs the generateURL loop with its own
stream gs n and fuel fuels n, and inserts the id it returns. -/
def genStores (gs : Nat → Nat → Fin 36) (fuels : Nat → Nat) : Nat → Store
  | 0 => []
  | n + 1 =>
    let s := genStores gs fuels n
    match generateURLFuel (fuels n) s (gs n) 0 with
    | some id => alistInsert id placeholderSnippet s
    | none => s

/-- The id generated in round n of the sequence, when that round's loop
returned within its fuel. -/
def genId (gs : Nat → Nat → Fin 36) (fuels : Nat → Nat) (n : Nat) : Option String :=
  generateURLFuel (fuels n) (genStores gs fuels n) (gs n) 0

/-! ## Lemmas: decimal rendering and parsing roundtrip -/

theorem natToDigitsRev_eq_digits (fuel : Nat) :
    ∀ n : Nat, n ≤ fuel → natToDigitsRev fuel n = Nat.digits 10 n := by
  induction fuel with
  | zero =>
    intro n hn
    have h0 : n = 0 := Nat.le_zero.mp hn
    subst h0
    simp [natToDigitsRev]
  | succ f ih =>
    intro n hn
    rcases Nat.eq_zero_or_pos n with h0 | h0
    · subst h0
      simp [natToDigitsRev]
    · have hne : n ≠ 0 := Nat.pos_iff_ne_zero.mp h0
      have hdiv : n / 10 ≤ f := by
        have := Nat.div_lt_self h0 (by norm_num : 1 < 10)
        omega
      rw [natToDigitsRev, if_neg hne, ih _ hdiv, Nat.digits_def' (by norm_num : 1 < 10) h0]

theorem digitChar_props (d : Nat) (hd : d < 10) :
    isDigitChar (Char.ofNat (48 + d)) = true ∧ digitVal (Char.ofNat (48 + d)) = d ∧
      Char.ofNat (48 + d) ≠ '-' ∧ Char.ofNat (48 + d) ≠ '+' := by
  interval_cases d <;> exact ⟨by decide, by decide, by decide, by decide⟩

theorem natRepr_ne_nil (n : Nat) : natRepr n ≠ [] := by
  unfold natRepr
  split
  · simp
  · rename_i hne
    simp only [ne_eq, List.map_eq_nil_iff, List.reverse_eq_nil_iff]
    rw [natToDigitsRev_eq_digits n n le_rfl]
    exact Nat.digits_ne_nil_iff_ne_zero.mpr hne

theorem mem_natRepr (n : Nat) (c : Char) (hc : c ∈ natRepr n) :
    isDigitChar c = true ∧ c ≠ '-' ∧ c ≠ '+' := by
  unfold natRepr at hc
  split at hc
  · have : c = '0' := by simpa using hc
    subst this
    exact ⟨by decide, by decide, by decide⟩
  · rw [natToDigitsRev_eq_digits n n le_rfl] at hc
    obtain ⟨d, hd, rfl⟩ := List.mem_map.mp hc
    have hd10 : d < 10 := Nat.digits_lt_base (by norm_num) (List.mem_reverse.mp hd)
    obtain ⟨h1, _, h3, h4⟩ := digitChar_props d hd10
    exact ⟨h1, h3, h4⟩

theorem foldr_eq_ofDigits (l : List Nat) :
    l.foldr (fun d acc => acc * 10 + d) 0 = Nat.ofDigits 10 l := by
  induction l with
  | nil => simp [Nat.ofDigits]
  | cons d l ih =>
    simp only [List.foldr_cons, Nat.ofDigits_cons, ih]
    ring

theorem foldl_digitVal_natRepr (n : Nat) :
    List.foldl (fun acc c => acc * 10 + digitVal c) 0 (natRepr n) = n := by
  unfold natRepr
  split
  · rename_i h0
    subst h0
    decide
  · rw [natToDigitsRev_eq_digits n n le_rfl, List.foldl_map]
    have hext :
        List.foldl (fun acc d => acc * 10 + digitVal (Char.ofNat (48 + d))) 0
            (Nat.digits 10 n).reverse =
          List.foldl (fun acc d => acc * 10 + d) 0 (Nat.digits 10 n).reverse := by
      refine List.foldl_ext _ _ _ fun a d hd => ?_
      have hd10 : d < 10 := Nat.digits_lt_base (by norm_num) (List.mem_reverse.mp hd)
      rw [(digitChar_props d hd10).2.1]
    rw [hext, List.foldl_reverse, foldr_eq_ofDigits, Nat.ofDigits_digits]

theorem parseDigits_natRepr (n : Nat) : parseDigits (natRepr n) = some n := by
  unfold parseDigits
  rw [if_pos, foldl_digitVal_natRepr]
  refine ⟨natRepr_ne_nil n, ?_⟩
  exact List.all_eq_true.mpr fun c hc => (mem_natRepr n c hc).1

theorem parseInt64_natRepr (n : Nat) :
    parseInt64 (natRepr n) =
      if (n : Int) ≤ int64Max then some (n : Int) else none := by
  rcases hrep : natRepr n with _ | ⟨c, rest⟩
  · exact absurd hrep (natRepr_ne_nil n)
  · have hmem : c ∈ natRepr n := by rw [hrep]; exact List.mem_cons_self _ _
    obtain ⟨_, hdash, hplus⟩ := mem_natRepr n c hmem
    have hsign : ¬(c = '-' ∨ c = '+') := by tauto
    have hparse : parseDigits (c :: rest) = some n := by
      rw [← hrep]; exact parseDigits_natRepr n
    unfold parseInt64
    simp only [decide_eq_false hdash, if_neg hsign, hparse, Bool.false_eq_true, if_false]
    have hmin : int64Min ≤ (n : Int) := by unfold int64Min; omega
    by_cases hle : (n : Int) ≤ int64Max
    · rw [if_pos ⟨hmin, hle⟩, if_pos hle]
    · rw [if_neg (by tauto), if_neg hle]

/-! ## Lemmas: splitDash -/

theorem splitDash_ne_nil (l : List Char) : splitDash l ≠ [] := by
  induction l with
  | nil => simp [splitDash]
  | cons c rest ih =>
    unfold splitDash
    split
    · simp
    · rcases hs : splitDash rest with _ | ⟨g, gs⟩ <;> simp

theorem splitDash_no_dash (l : List Char) (h : ∀ c ∈ l, c ≠ '-') :
    splitDash l = [l] := by
  induction l with
  | nil => rfl
  | cons c rest ih =>
    have hc : c ≠ '-' := h c (List.mem_cons_self _ _)
    unfold splitDash
    rw [if_neg hc, ih fun x hx => h x (List.mem_cons_of_mem _ hx)]

theorem splitDash_cons (c : Char) (rest : List Char) :
    splitDash (c :: rest) =
      if c = '-' then [] :: splitDash rest
      else
        match splitDash rest with
        | [] => [[c]]
        | g :: gs => (c :: g) :: gs := rfl

theorem splitDash_append (xs ys : List Char) (h : ∀ c ∈ xs, c ≠ '-') :
    splitDash (xs ++ '-' :: ys) = xs :: splitDash ys := by
  induction xs with
  | nil => simp [splitDash]
  | cons c rest ih =>
    have hc : c ≠ '-' := h c (List.mem_cons_self _ _)
    have hrest := ih fun x hx => h x (List.mem_cons_of_mem _ hx)
    rw [List.cons_append, splitDash_cons, if_neg hc, hrest]

/-! ## Lemmas: soundness of parseRange -/

theorem rangeChecks_sound {S st en s e : Int} (hst : 0 ≤ st)
    (hen : st ≤ en ∨ en = S - 1) (h : rangeChecks S st en = some (s, e)) :
    0 ≤ s ∧ s ≤ e ∧ e ≤ S - 1 := by
  unfold rangeChecks at h
  split at h
  · exact absurd h (by simp)
  · simp only [Option.some.injEq, Prod.mk.injEq] at h
    obtain ⟨rfl, rfl⟩ := h
    rename_i hlt
    rcases hen with hen | rfl <;> split_ifs <;> omega

theorem parseRange_sound {hdr : List Char} {S s e : Int}
    (h : parseRange hdr S = some (s, e)) :
    0 ≤ s ∧ s ≤ e ∧ e ≤ S - 1 := by
  simp only [parseRange] at h
  split at h
  · exact absurd h (by simp)
  · split at h
    · split at h
      · split at h
        · exact absurd h (by simp)
        · split at h
          · exact absurd h (by simp)
          · split at h
            · exact absurd h (by simp)
            · refine rangeChecks_sound ?_ (Or.inr rfl) h
              split <;> omega
      · split at h
        · exact absurd h (by simp)
        · split at h
          · exact absurd h (by simp)
          · split at h
            · exact rangeChecks_sound (by omega) (Or.inr rfl) h
            · split at h
              · exact absurd h (by simp)
              · split at h
                · exact absurd h (by simp)
                · exact rangeChecks_sound (by omega) (Or.inl (by omega)) h
    · exact absurd h (by simp)

/-! ## Lemmas: parse results on canonically rendered headers -/

theorem intRepr_natCast (n : Nat) : intRepr (n : Int) = natRepr n := by
  unfold intRepr
  rw [if_neg (by omega), Int.toNat_natCast]

theorem header_guard_false (t : List Char) :
    ¬ (("bytes=".toList ++ t).length < 6 ∨
        ("bytes=".toList ++ t).take 6 ≠ "bytes=".toList) := by
  have hpre : ("bytes=".toList).length = 6 := by decide
  push_neg
  constructor
  · rw [List.length_append, hpre]
    omega
  · exact List.take_left' hpre

theorem header_drop6 (t : List Char) : ("bytes=".toList ++ t).drop 6 = t :=
  List.drop_left' (by decide)

theorem parseRange_explicitHeader {s e S : Nat} (hse : s ≤ e) (heS : e < S)
    (hS : (S : Int) ≤ int64Max) :
    parseRange (explicitRangeHeader s e) (S : Int) = some ((s : Int), (e : Int)) := by
  have hs_int : (s : Int) ≤ int64Max := by omega
  have he_int : (e : Int) ≤ int64Max := by omega
  have hsplit : splitDash (natRepr s ++ '-' :: natRepr e) = [natRepr s, natRepr e] := by
    rw [splitDash_append _ _ fun c hc => (mem_natRepr s c hc).2.1,
      splitDash_no_dash _ fun c hc => (mem_natRepr e c hc).2.1]
  have hps : parseInt64 (natRepr s) = some (s : Int) := by
    rw [parseInt64_natRepr, if_pos hs_int]
  have hpe : parseInt64 (natRepr e) = some (e : Int) := by
    rw [parseInt64_natRepr, if_pos he_int]
  simp only [explicitRangeHeader, parseRange, if_neg (header_guard_false _), header_drop6,
    hsplit, if_neg (natRepr_ne_nil s), hps, if_neg (by omega : ¬ (s : Int) < 0),
    if_neg (natRepr_ne_nil e), hpe, if_neg (by omega : ¬ (e : Int) < (s : Int)), rangeChecks]
  rw [if_neg (by omega : ¬ (s : Int) ≥ (S : Int)),
    if_neg (by omega : ¬ (e : Int) ≥ (S : Int))]

theorem parseRange_suffixHeader {k S : Nat} (hk : 1 ≤ k) (hS : 1 ≤ S)
    (hkmax : (k : Int) ≤ int64Max) :
    parseRange (suffixRangeHeader k) (S : Int) =
      some (if (S : Int) - k < 0 then 0 else (S : Int) - k, (S : Int) - 1) := by
  have hsplit : splitDash ('-' :: natRepr k) = [[], natRepr k] := by
    have := splitDash_append [] (natRepr k) (by simp)
    simpa [splitDash_no_dash _ fun c hc => (mem_natRepr k c hc).2.1] using this
  have hpk : parseInt64 (natRepr k) = some (k : Int) := by
    rw [parseInt64_natRepr, if_pos hkmax]
  simp only [suffixRangeHeader, parseRange, if_neg (header_guard_false _), header_drop6,
    hsplit, if_true, if_neg (natRepr_ne_nil k), hpk,
    if_neg (by omega : ¬ (k : Int) < 0), rangeChecks]
  rw [if_neg, if_neg (by omega : ¬ (S : Int) - 1 ≥ (S : Int))]
  split <;> omega

theorem parseRange_suffixHeader_overflow {k : Nat} (S : Int)
    (hkmax : ¬ (k : Int) ≤ int64Max) :
    parseRange (suffixRangeHeader k) S = none := by
  have hsplit : splitDash ('-' :: natRepr k) = [[], natRepr k] := by
    have := splitDash_append [] (natRepr k) (by simp)
    simpa [splitDash_no_dash _ fun c hc => (mem_natRepr k c hc).2.1] using this
  have hpk : parseInt64 (natRepr k) = none := by
    rw [parseInt64_natRepr, if_neg hkmax]
  simp only [suffixRangeHeader, parseRange, if_neg (header_guard_false _), header_drop6,
    hsplit, if_true, if_neg (natRepr_ne_nil k), hpk]

theorem parseRange_suffixHeader_empty (k : Nat) (hk : 1 ≤ k) :
    parseRange (suffixRangeHeader k) ((0 : Nat) : Int) = none := by
  by_cases hkmax : (k : Int) ≤ int64Max
  · have hsplit : splitDash ('-' :: natRepr k) = [[], natRepr k] := by
      have := splitDash_append [] (natRepr k) (by simp)
      simpa [splitDash_no_dash _ fun c hc => (mem_natRepr k c hc).2.1] using this
    have hpk : parseInt64 (natRepr k) = some (k : Int) := by
      rw [parseInt64_natRepr, if_pos hkmax]
    simp only [suffixRangeHeader, parseRange, if_neg (header_guard_false _), header_drop6,
      hsplit, if_true, if_neg (natRepr_ne_nil k), hpk,
      if_neg (by omega : ¬ (k : Int) < 0), rangeChecks]
    rw [if_pos]
    split <;> omega
  · exact parseRange_suffixHeader_overflow _ hkmax

/-! ## Lemmas: serveFile branch behavior -/

theorem serveFile_parse_some {content : List Nat} {hdr : List Char} {s e : Int}
    (hhdr : hdr ≠ []) (hp : parseRange hdr (content.length : Int) = some (s, e)) :
    serveFile content hdr =
      { status := 206
      , contentRange := some (contentRangeValue s e (content.length : Int))
      , contentLength := e - s + 1
      , acceptRanges := true
      , body := (content.drop s.toNat).take (e - s + 1).toNat } := by
  simp only [serveFile, if_pos hhdr, hp]

theorem serveFile_parse_none {content : List Nat} {hdr : List Char}
    (hp : parseRange hdr (content.length : Int) = none) :
    serveFile content hdr = serveFull content := by
  by_cases hhdr : hdr = []
  · subst hhdr
    simp [serveFile]
  · simp only [serveFile, if_pos hhdr, hp]

theorem suffixRangeHeader_ne_nil (k : Nat) : suffixRangeHeader k ≠ [] := by
  simp [suffixRangeHeader]

theorem explicitRangeHeader_ne_nil (s e : Nat) : explicitRangeHeader s e ≠ [] := by
  simp [explicitRangeHeader]


/-! ## Lemmas: association list operations -/

theorem alistLookup_delete_self {β : Type} (k : String) (l : List (String × β)) :
    alistLookup k (alistDelete k l) = none := by
  induction l with
  | nil => rfl
  | cons p rest ih =>
    by_cases hp : p.1 = k
    · simp [alistDelete, hp, ih]
    · simp [alistDelete, hp, alistLookup, ih]

theorem alistLookup_delete_ne {β : Type} {k k' : String} (h : k' ≠ k)
    (l : List (String × β)) :
    alistLookup k' (alistDelete k l) = alistLookup k' l := by
  induction l with
  | nil => rfl
  | cons p rest ih =>
    by_cases hp : p.1 = k
    · have hkk' : k ≠ k' := fun hh => h hh.symm
      simp [alistDelete, hp, alistLookup, hkk', ih]
    · simp [alistDelete, hp, alistLookup, ih]

theorem alistLookup_insert_self {β : Type} (k : String) (v : β)
    (l : List (String × β)) :
    alistLookup k (alistInsert k v l) = some v := by
  simp [alistInsert, alistLookup]

theorem alistLookup_insert_ne {β : Type} {k k' : String} (h : k' ≠ k) (v : β)
    (l : List (String × β)) :
    alistLookup k' (alistInsert k v l) = alistLookup k' l := by
  have hk : k ≠ k' := fun hh => h hh.symm
  simp [alistInsert, alistLookup, hk, alistLookup_delete_ne h l]

theorem alistLookup_eq_none_of_not_mem {β : Type} {k : String}
    {l : List (String × β)} (h : k ∉ alistKeys l) : alistLookup k l = none := by
  induction l with
  | nil => rfl
  | cons p rest ih =>
    simp only [alistKeys, List.map_cons, List.mem_cons] at h
    push_neg at h
    have hp : p.1 ≠ k := fun hh => h.1 hh.symm
    simpa [alistLookup, hp] using ih (by simpa [alistKeys] using h.2)

/-! ## Lemmas: snapshot persistence -/

theorem tmpFile_ne (f : String) : f ++ ".tmp" ≠ f := by
  intro h
  have hlen := congrArg String.length h
  rw [String.length_append] at hlen
  have h4 : (".tmp" : String).length = 4 := rfl
  omega

theorem decodeSnippet_encodeSnippet (sn : Snippet) :
    decodeSnippet (encodeSnippet sn) = some sn := rfl

theorem decodeSnippetsList_encode (l : Store) :
    ∀ acc : Store,
      decodeSnippetsList (l.map fun q => (q.1, encodeSnippet q.2)) acc =
        some (l.foldl (fun a q => alistInsert q.1 q.2 a) acc) := by
  induction l with
  | nil => intro acc; rfl
  | cons q rest ih =>
    intro acc
    simp only [List.map_cons, decodeSnippetsList, decodeSnippet_encodeSnippet,
      List.foldl_cons]
    exact ih _

theorem lookup_foldl_insert (l : Store) :
    ∀ acc : Store, (alistKeys l).Nodup → ∀ k : String,
      alistLookup k (l.foldl (fun a q => alistInsert q.1 q.2 a) acc) =
        match alistLookup k l with
        | some v => some v
        | none => alistLookup k acc := by
  induction l with
  | nil => intro acc _ k; rfl
  | cons q rest ih =>
    intro acc hnodup k
    have hcons : alistKeys (q :: rest) = q.1 :: alistKeys rest := rfl
    rw [hcons] at hnodup
    obtain ⟨hq, hrest⟩ := List.nodup_cons.mp hnodup
    rw [List.foldl_cons, ih _ hrest k]
    by_cases hk : k = q.1
    · subst hk
      have hnone : alistLookup q.1 rest = none := alistLookup_eq_none_of_not_mem hq
      simp [hnone, alistLookup_insert_self, alistLookup]
    · have h1 : alistLookup k (alistInsert q.1 q.2 acc) = alistLookup k acc :=
        alistLookup_insert_ne hk q.2 acc
      have hqk : q.1 ≠ k := fun hh => hk hh.symm
      have h2 : alistLookup k (q :: rest) = alistLookup k rest := by
        simp [alistLookup, hqk]
      rw [h1, h2]

/-! ## Claim theorems: range subsystem -/

/-- C1: for every backing file of size S and every request whose Range
header is bytes=start-end with 0 <= start <= end < S (sizes being int64
values, S is at most 2^63 - 1), serveFile responds with status 206, header
Content-Range equal to bytes start-end/S, header Content-Length equal to
end - start + 1, and a body of exactly end - start + 1 bytes equal to bytes
start..end (inclusive) of the file. -/
theorem serveFile_explicit_range (content : List Nat) (s e : Nat)
    (hse : s ≤ e) (heS : e < content.length)
    (hS : (content.length : Int) ≤ int64Max) :
    serveFile content (explicitRangeHeader s e) =
      { status := 206
      , contentRange := some ("bytes ".toList ++ natRepr s ++ '-' ::
          (natRepr e ++ '/' :: natRepr content.length))
      , contentLength := (e : Int) - s + 1
      , acceptRanges := true
      , body := (content.drop s).take (e - s + 1) } ∧
    ((content.drop s).take (e - s + 1)).length = e - s + 1 := by
  have hp := parseRange_explicitHeader hse heS hS
  constructor
  · rw [serveFile_parse_some (explicitRangeHeader_ne_nil s e) hp]
    simp only [RangeResponse.mk.injEq]
    refine ⟨trivial, ?_, trivial, trivial, ?_⟩
    · unfold contentRangeValue
      rw [intRepr_natCast, intRepr_natCast, intRepr_natCast]
    · rw [Int.toNat_natCast]
      congr 1
      omega
  · rw [List.length_take, List.length_drop]
    omega

theorem serveFile_explicit_range_witness :
    serveFile [0, 1, 2, 3, 4, 5, 6, 7, 8, 9] (explicitRangeHeader 2 5) =
      { status := 206
      , contentRange := some ("bytes 2-5/10".toList)
      , contentLength := 4
      , acceptRanges := true
      , body := [2, 3, 4, 5] } := by
  have h := serveFile_explicit_range [0, 1, 2, 3, 4, 5, 6, 7, 8, 9] 2 5
    (by decide) (by decide) (by decide)
  exact h.1.trans (by decide)

/-- C2 (amended): for every backing file of size S (an int64 value, so S is
at most 2^63 - 1) and every suffix Range header bytes=-k with k at least 1:
if k <= S the response is 206 with Content-Range bytes (S-k)-(S-1)/S,
Content-Length k, and a body equal to the last k bytes of the file; if
k > S the body equals the whole file.  The case k = 0 is excluded: there
the parser rejects the range (start = S is past the file) and serveFile
falls back to the full 200 response, not to an empty body. -/
theorem serveFile_suffix_range (content : List Nat) (k : Nat) (hk : 1 ≤ k)
    (hS : (content.length : Int) ≤ int64Max) :
    (k ≤ content.length →
      serveFile content (suffixRangeHeader k) =
        { status := 206
        , contentRange := some ("bytes ".toList ++ natRepr (content.length - k) ++ '-' ::
            (natRepr (content.length - 1) ++ '/' :: natRepr content.length))
        , contentLength := (k : Int)
        , acceptRanges := true
        , body := content.drop (content.length - k) } ∧
      (content.drop (content.length - k)).length = k)
    ∧ (content.length < k →
      (serveFile content (suffixRangeHeader k)).body = content) := by
  constructor
  · intro hkS
    have hS1 : 1 ≤ content.length := le_trans hk hkS
    have hkmax : (k : Int) ≤ int64Max := by omega
    have hp := @parseRange_suffixHeader k content.length hk hS1 hkmax
    rw [if_neg (by omega : ¬ (content.length : Int) - k < 0)] at hp
    constructor
    · rw [serveFile_parse_some (suffixRangeHeader_ne_nil k) hp]
      simp only [RangeResponse.mk.injEq]
      have hcast1 : (content.length : Int) - k = ((content.length - k : Nat) : Int) := by omega
      have hcast2 : (content.length : Int) - 1 = ((content.length - 1 : Nat) : Int) := by omega
      refine ⟨trivial, ?_, by omega, trivial, ?_⟩
      · unfold contentRangeValue
        rw [hcast1, hcast2, intRepr_natCast, intRepr_natCast, intRepr_natCast]
      · have htn1 : ((content.length : Int) - k).toNat = content.length - k := by omega
        have htn2 : ((content.length : Int) - 1 - ((content.length : Int) - k) + 1).toNat
            = k := by omega
        rw [htn1, htn2]
        exact List.take_of_length_le (by rw [List.length_drop]; omega)
    · rw [List.length_drop]
      omega
  · intro hSk
    by_cases hkmax : (k : Int) ≤ int64Max
    · by_cases hS1 : 1 ≤ content.length
      · have hp := @parseRange_suffixHeader k content.length hk hS1 hkmax
        rw [if_pos (by omega : (content.length : Int) - k < 0)] at hp
        rw [serveFile_parse_some (suffixRangeHeader_ne_nil k) hp]
        have htn : ((content.length : Int) - 1 - 0 + 1).toNat = content.length := by omega
        simp only [Int.toNat_zero, List.drop_zero, htn, List.take_length]
      · have hlen : content.length = 0 := by omega
        have hnil : content = [] := List.length_eq_zero.mp hlen
        subst hnil
        rw [@serveFile_parse_none [] _ (parseRange_suffixHeader_empty k hk)]
        rfl
    · rw [serveFile_parse_none (parseRange_suffixHeader_overflow _ hkmax)]
      rfl

theorem serveFile_suffix_range_witness :
    serveFile [0, 1, 2, 3, 4, 5, 6, 7, 8, 9] (suffixRangeHeader 3) =
      { status := 206
      , contentRange := some ("bytes 7-9/10".toList)
      , contentLength := 3
      , acceptRanges := true
      , body := [7, 8, 9] } := by
  have h := (serveFile_suffix_range [0, 1, 2, 3, 4, 5, 6, 7, 8, 9] 3
    (by decide) (by decide)).1 (by decide)
  exact h.1.trans (by decide)

/-- C2 counterexample: for the 1-byte file [7] and the suffix header
bytes=-0 (k = 0 <= S = 1, so the claim demands a body equal to the last 0
bytes, which is the empty list), serveFile instead rejects the range and
serves the complete file with status 200. -/
theorem serveFile_suffix_zero_counterexample :
    (serveFile [7] (suffixRangeHeader 0)).status = 200 ∧
      (serveFile [7] (suffixRangeHeader 0)).body = [7] ∧
      (serveFile [7] (suffixRangeHeader 0)).body ≠ List.drop (1 - 0) [7] := by
  decide

/-- C3: for every existing backing file and every Range header value that
parseRange rejects, serveFile responds exactly as it does when no Range
header is present: status 200 with the complete file body. -/
theorem serveFile_fallback (content : List Nat) (hdr : List Char)
    (hrej : parseRange hdr (content.length : Int) = none) :
    serveFile content hdr = serveFile content [] ∧
      (serveFile content hdr).status = 200 ∧
      (serveFile content hdr).body = content := by
  have h1 : serveFile content hdr = serveFull content := serveFile_parse_none hrej
  have h2 : serveFile content [] = serveFull content := by simp [serveFile]
  rw [h1, h2]
  exact ⟨rfl, rfl, rfl⟩

theorem serveFile_fallback_witness :
    serveFile [1, 2, 3] ("bytes=abc".toList) = serveFile [1, 2, 3] [] ∧
      (serveFile [1, 2, 3] ("bytes=abc".toList)).status = 200 ∧
      (serveFile [1, 2, 3] ("bytes=abc".toList)).body = [1, 2, 3] :=
  serveFile_fallback [1, 2, 3] ("bytes=abc".toList) (by decide)

/-- C10: whenever parseRange returns success, the returned pair satisfies
0 <= start <= end <= fileSize - 1; the 206 branch therefore seeks within
the file and streams a positive byte count end - start + 1 that fits inside
it, and success is impossible when fileSize = 0 (the last conjunct forces
fileSize >= 1). -/
theorem parseRange_success_bounds {hdr : List Char} {fileSize s e : Int}
    (h : parseRange hdr fileSize = some (s, e)) :
    0 ≤ s ∧ s ≤ e ∧ e ≤ fileSize - 1 ∧ 0 < e - s + 1 ∧
      s + (e - s + 1) ≤ fileSize ∧ 1 ≤ fileSize := by
  obtain ⟨h1, h2, h3⟩ := parseRange_sound h
  exact ⟨h1, h2, h3, by omega, by omega, by omega⟩

theorem parseRange_success_bounds_witness :
    0 ≤ (2 : Int) ∧ (2 : Int) ≤ 5 ∧ (5 : Int) ≤ 10 - 1 ∧ (0 : Int) < 5 - 2 + 1 ∧
      (2 : Int) + (5 - 2 + 1) ≤ 10 ∧ (1 : Int) ≤ 10 :=
  @parseRange_success_bounds ("bytes=2-5".toList) 10 2 5 (by decide)

/-! ## Claim theorems: snippet persistence and display -/

/-- C4: saveSnippetsToFile serializes the full store, writes the document
to the temporary path filename + .tmp, then renames it over the target; it
reports success exactly when every step succeeded, never crashes (it is a
total function of the modelled environment), and on any failure
(serialization, write or rename) the previously committed snapshot at the
target path is unmodified; on success the target holds the serialization of
the full store and the temporary file is gone. -/
theorem saveSnippets_atomic (mOk wOk rOk : Bool) (leftoverTemp : Json) (fs : FS)
    (filename : String) (store : Store) :
    ((saveSnippetsToFile mOk wOk rOk leftoverTemp fs filename store).ok = true ↔
      mOk = true ∧ wOk = true ∧ rOk = true)
    ∧ ((saveSnippetsToFile mOk wOk rOk leftoverTemp fs filename store).ok = false →
      fsRead (saveSnippetsToFile mOk wOk rOk leftoverTemp fs filename store).fs filename =
        fsRead fs filename)
    ∧ ((saveSnippetsToFile mOk wOk rOk leftoverTemp fs filename store).ok = true →
      fsRead (saveSnippetsToFile mOk wOk rOk leftoverTemp fs filename store).fs filename =
        some (marshalSnippets store)
      ∧ fsRead (saveSnippetsToFile mOk wOk rOk leftoverTemp fs filename store).fs
          (filename ++ ".tmp") = none) := by
  have hne : filename ≠ filename ++ ".tmp" := fun hh => tmpFile_ne filename hh.symm
  cases mOk <;> cases wOk <;> cases rOk <;>
    simp [saveSnippetsToFile, fsRead, alistLookup_insert_self,
      alistLookup_insert_ne hne, alistLookup_insert_ne (tmpFile_ne filename),
      alistLookup_delete_self, alistLookup_delete_ne hne]

theorem saveSnippets_atomic_witness :
    fsRead (saveSnippetsToFile true false true (Json.str "partial")
        [("snippets.json", Json.bool true)] "snippets.json" []).fs "snippets.json" =
      fsRead [("snippets.json", Json.bool true)] "snippets.json"
    ∧ fsRead (saveSnippetsToFile true true true (Json.str "partial")
        [("snippets.json", Json.bool true)] "snippets.json" []).fs "snippets.json" =
      some (marshalSnippets []) :=
  ⟨(saveSnippets_atomic true false true (Json.str "partial")
      [("snippets.json", Json.bool true)] "snippets.json" []).2.1 rfl,
    ((saveSnippets_atomic true true true (Json.str "partial")
      [("snippets.json", Json.bool true)] "snippets.json" []).2.2 rfl).1⟩

/-- C5: at startup, a missing snapshot path loads as the empty store
without an error, while an existing path whose contents do not parse as the
expected JSON document is fatal (the process exits instead of running). -/
theorem loadSnippets_startup (fs : FS) (filename : String) (openOk : Bool) :
    (fsRead fs filename = none → loadSnippetsFromFile fs filename openOk = .loaded [])
    ∧ (∀ j, fsRead fs filename = some j → unmarshalSnippets j = none →
        loadSnippetsFromFile fs filename true = .fatal) := by
  constructor
  · intro h
    simp [loadSnippetsFromFile, h]
  · intro j hj hbad
    simp [loadSnippetsFromFile, hj, hbad]

theorem loadSnippets_startup_witness :
    loadSnippetsFromFile [] "snippets.json" true = .loaded [] ∧
      loadSnippetsFromFile [("snippets.json", Json.str "garbage")] "snippets.json" true =
        .fatal :=
  ⟨(loadSnippets_startup [] "snippets.json" true).1 rfl,
    (loadSnippets_startup [("snippets.json", Json.str "garbage")] "snippets.json" true).2
      (Json.str "garbage") rfl rfl⟩

/-- C6: a successful save followed by a load of the written snapshot
reproduces a store with an equal set of entries: looking up any id yields
the same snippet (same title, text and burn-after-reading flag) as in the
saved store. -/
theorem saveLoad_roundtrip (store : Store) (fs : FS) (filename : String)
    (leftoverTemp : Json) (hnodup : (alistKeys store).Nodup) :
    ∃ store',
      loadSnippetsFromFile
          (saveSnippetsToFile true true true leftoverTemp fs filename store).fs
          filename true = .loaded store'
      ∧ ∀ k, alistLookup k store' = alistLookup k store := by
  refine ⟨store.foldl (fun a q => alistInsert q.1 q.2 a) [], ?_, ?_⟩
  · have hfs : (saveSnippetsToFile true true true leftoverTemp fs filename store).fs =
        alistInsert filename (marshalSnippets store)
          (alistDelete (filename ++ ".tmp")
            (alistInsert (filename ++ ".tmp") (marshalSnippets store) fs)) := by
      simp [saveSnippetsToFile]
    have hread : fsRead
        (saveSnippetsToFile true true true leftoverTemp fs filename store).fs filename =
        some (marshalSnippets store) := by
      rw [hfs]
      exact alistLookup_insert_self _ _ _
    have hum : unmarshalSnippets (marshalSnippets store) =
        some (store.foldl (fun a q => alistInsert q.1 q.2 a) []) := by
      simp only [marshalSnippets, unmarshalSnippets]
      exact decodeSnippetsList_encode store []
    simp [loadSnippetsFromFile, hread, hum]
  · intro k
    rw [lookup_foldl_insert store [] hnodup k]
    cases h : alistLookup k store <;> simp [h, alistLookup]

theorem saveLoad_roundtrip_witness :
    ∃ store',
      loadSnippetsFromFile
          (saveSnippetsToFile true true true (Json.bool false) []
            "snippets.json" [("ab", Snippet.mk "t" "hi" true)]).fs
          "snippets.json" true = .loaded store'
      ∧ ∀ k, alistLookup k store' = alistLookup k [("ab", Snippet.mk "t" "hi" true)] :=
  saveLoad_roundtrip [("ab", Snippet.mk "t" "hi" true)] [] "snippets.json"
    (Json.bool false) (by decide)

/-- C7: a snippet with burnAfterReading true is removed by its first
successful display, after which displaying the same id redirects home; a
failed render does not remove it; a snippet with burnAfterReading false is
still in the store after any number of displays. -/
theorem displaySnippet_burn (store : Store) (url : String) (sn : Snippet)
    (h : alistLookup url store = some sn) :
    (sn.burnAfterReading = true →
      displaySnippet store url true =
        (.rendered sn.title sn.text, alistDelete url store)
      ∧ alistLookup url (alistDelete url store) = none
      ∧ ∀ r, displaySnippet (alistDelete url store) url r =
          (.redirectHome, alistDelete url store))
    ∧ displaySnippet store url false = (.renderError, store)
    ∧ (sn.burnAfterReading = false →
      ∀ r n, (fun st => (displaySnippet st url r).2)^[n] store = store) := by
  refine ⟨fun hb => ⟨?_, ?_, ?_⟩, ?_, fun hb r n => ?_⟩
  · simp [displaySnippet, h, hb]
  · exact alistLookup_delete_self url store
  · intro r
    simp [displaySnippet, alistLookup_delete_self url store]
  · simp [displaySnippet, h]
  · induction n with
    | zero => rfl
    | succ m ih =>
      rw [Function.iterate_succ_apply', ih]
      cases r <;> simp [displaySnippet, h, hb]

theorem displaySnippet_burn_witness :
    displaySnippet [("abc", Snippet.mk "t" "x" true)] "abc" true =
      (.rendered "t" "x", alistDelete "abc" [("abc", Snippet.mk "t" "x" true)]) ∧
    displaySnippet (alistDelete "abc" [("abc", Snippet.mk "t" "x" true)]) "abc" true =
      (.redirectHome, alistDelete "abc" [("abc", Snippet.mk "t" "x" true)]) := by
  have h := (displaySnippet_burn [("abc", Snippet.mk "t" "x" true)] "abc"
    (Snippet.mk "t" "x" true) (by decide)).1 rfl
  exact ⟨h.1, h.2.2 true⟩

/-! ## Lemmas: id generation -/

theorem snippetChars_length : snippetChars.length = 36 := rfl

theorem idAt_length (g : Nat → Fin 36) (m : Nat) : (idAt g m).length = 3 := rfl

theorem idAt_chars (g : Nat → Fin 36) (m : Nat) :
    ∀ c ∈ (idAt g m).data, c ∈ snippetChars := by
  intro c hc
  have hdata : (idAt g m).data =
      (List.range 3).map fun i => snippetChars.getD (g (3 * m + i)).val 'a' := rfl
  rw [hdata] at hc
  obtain ⟨i, _, rfl⟩ := List.mem_map.mp hc
  have hlt : (g (3 * m + i)).val < snippetChars.length := by
    rw [snippetChars_length]
    exact (g (3 * m + i)).isLt
  rw [List.getD_eq_getElem?_getD, List.getElem?_eq_getElem hlt, Option.getD_some]
  exact List.getElem_mem hlt

theorem generateURLFuel_fresh :
    ∀ (fuel : Nat) (store : Store) (g : Nat → Fin 36) (attempt : Nat) (id : String),
      generateURLFuel fuel store g attempt = some id → alistLookup id store = none := by
  intro fuel
  induction fuel with
  | zero =>
    intro store g attempt id h
    exact absurd h (by simp [generateURLFuel])
  | succ f ih =>
    intro store g attempt id h
    simp only [generateURLFuel] at h
    split at h
    · rename_i hcond
      obtain rfl : idAt g attempt = id := by injection h
      exact Option.isNone_iff_eq_none.mp hcond
    · exact ih _ _ _ _ h

theorem generateURLFuel_shape :
    ∀ (fuel : Nat) (store : Store) (g : Nat → Fin 36) (attempt : Nat) (id : String),
      generateURLFuel fuel store g attempt = some id → ∃ m, id = idAt g m := by
  intro fuel
  induction fuel with
  | zero =>
    intro store g attempt id h
    exact absurd h (by simp [generateURLFuel])
  | succ f ih =>
    intro store g attempt id h
    simp only [generateURLFuel] at h
    split at h
    · obtain rfl : idAt g attempt = id := by injection h
      exact ⟨attempt, rfl⟩
    · exact ih _ _ _ _ h

theorem generateURLFuel_succeeds (n : Nat) :
    ∀ (store : Store) (g : Nat → Fin 36) (attempt : Nat),
      alistLookup (idAt g (attempt + n)) store = none →
      ∃ id, generateURLFuel (n + 1) store g attempt = some id := by
  induction n with
  | zero =>
    intro store g attempt h
    have h' : alistLookup (idAt g attempt) store = none := by simpa using h
    exact ⟨idAt g attempt, by simp [generateURLFuel, h']⟩
  | succ m ih =>
    intro store g attempt h
    by_cases hat : alistLookup (idAt g attempt) store = none
    · exact ⟨idAt g attempt, by simp [generateURLFuel, hat]⟩
    · have h' : alistLookup (idAt g (attempt + 1 + m)) store = none := by
        have heq : attempt + 1 + m = attempt + (m + 1) := by omega
        rw [heq]
        exact h
      obtain ⟨id, hgen⟩ := ih store g (attempt + 1) h'
      refine ⟨id, ?_⟩
      have hcond : ¬ ((alistLookup (idAt g attempt) store).isNone = true) := by
        simp [Option.isNone_iff_eq_none, hat]
      calc generateURLFuel (m + 1 + 1) store g attempt
          = generateURLFuel (m + 1) store g (attempt + 1) := by
            show (if (alistLookup (idAt g attempt) store).isNone = true
                then some (idAt g attempt)
                else generateURLFuel (m + 1) store g (attempt + 1)) = _
            exact if_neg hcond
        _ = some id := hgen

theorem alistLookup_insert_isSome {β : Type} (k k' : String) (v : β)
    (l : List (String × β)) (h : (alistLookup k' l).isSome = true) :
    (alistLookup k' (alistInsert k v l)).isSome = true := by
  by_cases hk : k' = k
  · subst hk
    simp [alistLookup_insert_self]
  · rw [alistLookup_insert_ne hk]
    exact h

theorem genStores_isSome_mono (gs : Nat → Nat → Fin 36) (fuels : Nat → Nat)
    (a : String) : ∀ {i j : Nat}, i ≤ j →
      (alistLookup a (genStores gs fuels i)).isSome = true →
      (alistLookup a (genStores gs fuels j)).isSome = true := by
  intro i j hij h
  induction j, hij using Nat.le_induction with
  | base => exact h
  | succ j hij ih =>
    show (alistLookup a (genStores gs fuels (j + 1))).isSome = true
    simp only [genStores]
    split
    · exact alistLookup_insert_isSome _ _ _ _ ih
    · exact ih

/-! ## Claim theorems: snippet id generation -/

/-- C8 counterexample: a store state holding the id aaa together with the
random stream that constantly samples index 0 (so every attempt draws aaa)
makes the generateURL loop run forever: no amount of fuel makes any suffix
of the loop return.  Termination of generateURL therefore does not hold for
every state of the store and every behavior of the sampler; it holds only
almost surely, and for a store holding all 46656 ids it fails for every
stream. -/
theorem generateURL_diverges_counterexample :
    genDiverges [("aaa", placeholderSnippet)] (fun _ => (0 : Fin 36)) := by
  intro fuel
  induction fuel with
  | zero =>
    intro attempt
    rfl
  | succ f ih =>
    intro attempt
    have hid : idAt (fun _ => (0 : Fin 36)) attempt = "aaa" := rfl
    have hlk : alistLookup (idAt (fun _ => (0 : Fin 36)) attempt)
        [("aaa", placeholderSnippet)] = some placeholderSnippet := by
      rw [hid]
      rfl
    simp [generateURLFuel, hlk, ih (attempt + 1)]

/-- C8 (amended): whenever the random stream eventually draws an id that is
not yet a key of the store (almost surely the case when some 3-character id
is free), the generateURL loop terminates, and the id it returns is exactly
3 characters long, drawn from the 36-symbol lowercase-alphanumeric
alphabet, and not a key of the store at the moment of return; consequently,
for any sequence of generations against an initially empty store where each
generated id is inserted before the next generation, all generated ids are
pairwise distinct. -/
theorem generateURL_spec (store : Store) (g : Nat → Fin 36)
    (hfree : ∃ attempt, alistLookup (idAt g attempt) store = none) :
    (∃ fuel id, generateURLFuel fuel store g 0 = some id
      ∧ id.length = 3
      ∧ (∀ c ∈ id.data, c ∈ snippetChars)
      ∧ alistLookup id store = none)
    ∧ (∀ (gs : Nat → Nat → Fin 36) (fuels : Nat → Nat) (i j : Nat) (a b : String),
        i < j → genId gs fuels i = some a → genId gs fuels j = some b → a ≠ b) := by
  constructor
  · obtain ⟨a0, h0⟩ := hfree
    obtain ⟨id, hgen⟩ := generateURLFuel_succeeds a0 store g 0 (by simpa using h0)
    obtain ⟨m, rfl⟩ := generateURLFuel_shape _ _ _ _ _ hgen
    exact ⟨a0 + 1, idAt g m, hgen, idAt_length g m, idAt_chars g m,
      generateURLFuel_fresh _ _ _ _ _ hgen⟩
  · intro gs fuels i j a b hij ha hb heq
    subst heq
    have ha' : generateURLFuel (fuels i) (genStores gs fuels i) (gs i) 0 = some a := ha
    have hin : (alistLookup a (genStores gs fuels (i + 1))).isSome = true := by
      simp only [genStores, ha']
      simp [alistLookup_insert_self]
    have hj : (alistLookup a (genStores gs fuels j)).isSome = true :=
      genStores_isSome_mono gs fuels a (by omega) hin
    have hbnone : alistLookup a (genStores gs fuels j) = none :=
      generateURLFuel_fresh _ _ _ _ _ hb
    rw [hbnone] at hj
    exact absurd hj (by simp)

theorem generateURL_spec_witness :
    (∃ fuel id, generateURLFuel fuel [] (fun _ => (0 : Fin 36)) 0 = some id
      ∧ id.length = 3
      ∧ (∀ c ∈ id.data, c ∈ snippetChars)
      ∧ alistLookup id ([] : Store) = none)
    ∧ (∀ (gs : Nat → Nat → Fin 36) (fuels : Nat → Nat) (i j : Nat) (a b : String),
        i < j → genId gs fuels i = some a → genId gs fuels j = some b → a ≠ b) :=
  generateURL_spec [] (fun _ => (0 : Fin 36)) ⟨0, rfl⟩

/-! ## Claim theorems: content classification -/

/-- C9: classification is a deterministic, total, side-effect-free function
of the filename's extension as extracted (case-sensitive, no content
sniffing): getContentType agrees with the specification's extension table
everywhere, each category predicate holds exactly on the extensions the
specification lists for it, and a filename whose extension is unmapped or
missing yields application/octet-stream with every category predicate
false. -/
theorem classifier_table (filename : List Char) :
    getContentType filename = specMime (fileExt filename)
    ∧ isVideoFile filename = decide (fileExt filename ∈ videoExts)
    ∧ isAudioFile filename = decide (fileExt filename ∈ audioExts)
    ∧ isImageFile filename = decide (fileExt filename ∈ imageExts)
    ∧ isPDFFile filename = decide (fileExt filename ∈ pdfExts)
    ∧ isTextFile filename = decide (fileExt filename ∈ textExts)
    ∧ (fileExt filename ∉ mappedExts →
        getContentType filename = "application/octet-stream"
        ∧ isVideoFile filename = false ∧ isAudioFile filename = false
        ∧ isImageFile filename = false ∧ isPDFFile filename = false
        ∧ isTextFile filename = false) := by
  simp only [getContentType, isVideoFile, isAudioFile, isImageFile, isPDFFile, isTextFile]
  generalize fileExt filename = ext
  by_cases h1 : ext = ".mp4".toList
  · subst h1; decide
  by_cases h2 : ext = ".mov".toList
  · subst h2; decide
  by_cases h3 : ext = ".avi".toList
  · subst h3; decide
  by_cases h4 : ext = ".webm".toList
  · subst h4; decide
  by_cases h5 : ext = ".pdf".toList
  · subst h5; decide
  by_cases h6 : ext = ".jpg".toList
  · subst h6; decide
  by_cases h7 : ext = ".jpeg".toList
  · subst h7; decide
  by_cases h8 : ext = ".png".toList
  · subst h8; decide
  by_cases h9 : ext = ".gif".toList
  · subst h9; decide
  by_cases h10 : ext = ".webp".toList
  · subst h10; decide
  by_cases h11 : ext = ".txt".toList
  · subst h11; decide
  by_cases h12 : ext = ".html".toList
  · subst h12; decide
  by_cases h13 : ext = ".htm".toList
  · subst h13; decide
  by_cases h14 : ext = ".json".toList
  · subst h14; decide
  by_cases h15 : ext = ".xml".toList
  · subst h15; decide
  by_cases h16 : ext = ".mp3".toList
  · subst h16; decide
  by_cases h17 : ext = ".wav".toList
  · subst h17; decide
  by_cases h18 : ext = ".ogg".toList
  · subst h18; decide
  simp_all [specMime, videoExts, audioExts, imageExts, pdfExts, textExts, mappedExts]

theorem classifier_table_witness :
    getContentType ("movie.mp4".toList) = "video/mp4"
    ∧ isVideoFile ("movie.mp4".toList) = true
    ∧ getContentType ("NOTES.BIN".toList) = "application/octet-stream"
    ∧ isVideoFile ("NOTES.BIN".toList) = false
    ∧ isTextFile ("NOTES.BIN".toList) = false := by
  have h1 := classifier_table ("movie.mp4".toList)
  have h2 := classifier_table ("NOTES.BIN".toList)
  refine ⟨h1.1.trans (by decide), h1.2.1.trans (by decide),
    (h2.2.2.2.2.2.2 (by decide)).1, (h2.2.2.2.2.2.2 (by decide)).2.1,
    (h2.2.2.2.2.2.2 (by decide)).2.2.2.2.2⟩

end Pasty
